import Mathlib

/-!
Shallow embedding of the collectible-card tracker's persistence and
aggregation core (src/App.tsx, src/components/DashboardView.tsx,
src/components/CardFormModal.tsx, src/utils/db.ts).

Conventions of the embedding:
* Calendar dates (`buyDate`, `sellDate`; ISO `YYYY-MM-DD` strings in the
  source) are represented by their day number since 1970-01-01.  A JS
  `Date` parsed from such a string stands for that day number times
  86400000 milliseconds (UTC midnight).  Instants (`Date.now()`,
  `createdAt`) are integer milliseconds.  The JS engine's local time
  zone is taken to be UTC.
* Monetary amounts (JS numbers) are rationals.
* JS `Array.prototype.sort` with a numeric comparator is a stable
  ascending sort; it is modelled by `List.insertionSort`, which is
  stable.
* JS truthiness on a nullable number (`if (c.sellPrice)`) is `truthyQ`:
  false exactly on `null` and `0`.
-/

/-- The record type of `src/types.ts` (`CardTransaction`). -/
structure CardTransaction where
  id : String
  name : String
  setOrSeries : String
  notes : String
  imageUrl : Option String
  buyDate : Int
  buyPrice : ℚ
  isSold : Bool
  sellDate : Option Int
  sellPrice : Option ℚ
  createdAt : Int

deriving instance DecidableEq for CardTransaction

/-- JS truthiness of a nullable number: `null` and `0` are falsy. -/
def truthyQ : Option ℚ → Bool
  | none => false
  | some q => decide (q ≠ 0)

/-- Days-since-1970-01-01 of a proleptic Gregorian calendar date
(Howard Hinnant's `days_from_civil`, the arithmetic JS `Date.UTC`
performs). -/
def daysFromCivil (y m d : Int) : Int :=
  let yy := if m ≤ 2 then y - 1 else y
  let era := Int.fdiv yy 400
  let yoe := yy - era * 400
  let mm := if 2 < m then m - 3 else m + 9
  let doy := Int.fdiv (153 * mm + 2) 5 + d - 1
  let doe := yoe * 365 + Int.fdiv yoe 4 - Int.fdiv yoe 100 + doy
  era * 146097 + doe - 719468

/-- Inverse of `daysFromCivil` (Hinnant's `civil_from_days`): the
`(year, month, day)` of a day number, as JS `Date` getters report it in
UTC. -/
def civilFromDays (z0 : Int) : Int × Int × Int :=
  let z := z0 + 719468
  let era := Int.fdiv z 146097
  let doe := z - era * 146097
  let yoe := Int.fdiv (doe - Int.fdiv doe 1460 + Int.fdiv doe 36524 - Int.fdiv doe 146096) 365
  let y := yoe + era * 400
  let doy := doe - (365 * yoe + Int.fdiv yoe 4 - Int.fdiv yoe 100)
  let mp := Int.fdiv (5 * doy + 2) 153
  let d := doy - Int.fdiv (153 * mp + 2) 5 + 1
  let m := if mp < 10 then mp + 3 else mp - 9
  (if m ≤ 2 then y + 1 else y, m, d)

def msPerDay : Int := 86400000

/-- JS `someDate.getDate()` (day of month, UTC model) of an instant in
milliseconds. -/
def jsGetDate (t : Int) : Int := (civilFromDays (Int.fdiv t msPerDay)).2.2

/-- The `'7days'` branch of `filteredCards` in
`src/components/DashboardView.tsx` (lines 17-66).  The source runs
`let start = new Date(0)` and then `start.setDate(now.getDate() - 7)`:
`setDate` on a date in January 1970 yields day number
`now.getDate() - 7 - 1`, at midnight.  `end` stays `now`.  A card passes
if its buy date, or (when non-null) its sell date, lies in
`[start, end]`. -/
def filteredCards7days (now : Int) (cards : List CardTransaction) : List CardTransaction :=
  let start := (jsGetDate now - 7 - 1) * msPerDay
  cards.filter (fun c =>
    let buy := c.buyDate * msPerDay
    let buyInRange := decide (start ≤ buy) && decide (buy ≤ now)
    let sellInRange :=
      match c.sellDate with
      | some sd => decide (start ≤ sd * msPerDay) && decide (sd * msPerDay ≤ now)
      | none => false
    buyInRange || sellInRange)

/-- Modelled from the claim's words (for comparison with the source):
membership in the `last-7-days` window `[now - 7 days, now]` — the
record's purchase date lies in the window, or the record is sold and its
sale date lies in the window. -/
def claimIncluded7days (now : Int) (c : CardTransaction) : Bool :=
  let start := now - 7 * msPerDay
  let buy := c.buyDate * msPerDay
  (decide (start ≤ buy) && decide (buy ≤ now)) ||
    (c.isSold && (match c.sellDate with
      | some sd => decide (start ≤ sd * msPerDay) && decide (sd * msPerDay ≤ now)
      | none => false))

/-- Midnight UTC, 2024-06-15, in milliseconds. -/
def nowJune2024 : Int := daysFromCivil 2024 6 15 * msPerDay

/-- An unsold card bought 2020-01-01 — more than 7 days before
`nowJune2024`. -/
def cardJan2020 : CardTransaction :=
  { id := "c1", name := "old", setOrSeries := "", notes := "", imageUrl := none,
    buyDate := daysFromCivil 2020 1 1, buyPrice := 100, isSold := false,
    sellDate := none, sellPrice := none, createdAt := 0 }

theorem civilFromDays_epoch : civilFromDays 0 = (1970, 1, 1) := by decide

theorem daysFromCivil_epoch : daysFromCivil 1970 1 1 = 0 := by decide

theorem jsGetDate_nowJune2024 : jsGetDate nowJune2024 = 15 := by decide

/-- Claim C1: the `last-7-days` filter includes a record iff its
purchase date — or, when sold, its sale date — lies in
`[now - 7 days, now]`.  The code violates this: for `now` =
2024-06-15, the computed window start is 1970-01-08 (the source calls
`setDate` on `new Date(0)` instead of on a copy of `now`), so an unsold
card bought 2020-01-01 is included even though both of its dates lie
more than 7 days before `now`. -/
theorem filteredCards7days_code_bug :
    filteredCards7days nowJune2024 [cardJan2020] = [cardJan2020] ∧
    claimIncluded7days nowJune2024 cardJan2020 = false := by decide

/-! ### Summary statistics (`stats` in DashboardView.tsx, lines 69-104) -/

/-- The accumulator variables of the `forEach` loop in `stats`. -/
structure StatsAcc where
  totalInvested : ℚ
  totalSoldVal : ℚ
  soldCostBasis : ℚ
  soldCount : Nat
  unsoldValue : ℚ

/-- One iteration of the `forEach` loop: always add `buyPrice` to
`totalInvested`; for a sold card with truthy `sellPrice` accumulate the
sale sums and count; for an unsold card accumulate `unsoldValue`. -/
def statsStep (a : StatsAcc) (c : CardTransaction) : StatsAcc :=
  let a := { a with totalInvested := a.totalInvested + c.buyPrice }
  if c.isSold then
    if truthyQ c.sellPrice then
      { a with totalSoldVal := a.totalSoldVal + c.sellPrice.getD 0,
               soldCostBasis := a.soldCostBasis + c.buyPrice,
               soldCount := a.soldCount + 1 }
    else a
  else { a with unsoldValue := a.unsoldValue + c.buyPrice }

/-- The result object returned by the `stats` memo. -/
structure DashboardStats where
  totalInvested : ℚ
  totalSoldVal : ℚ
  netProfit : ℚ
  roi : ℚ
  totalCards : Nat
  soldCount : Nat
  unsoldValue : ℚ

/-- `stats` from DashboardView.tsx: fold the loop over the filtered
cards, then derive `netProfit` and `roi`. -/
def stats (l : List CardTransaction) : DashboardStats :=
  let a := l.foldl statsStep ⟨0, 0, 0, 0, 0⟩
  let netProfit := a.totalSoldVal - a.soldCostBasis
  let roi := if a.soldCostBasis > 0 then netProfit / a.soldCostBasis * 100 else 0
  { totalInvested := a.totalInvested, totalSoldVal := a.totalSoldVal,
    netProfit := netProfit, roi := roi, totalCards := l.length,
    soldCount := a.soldCount, unsoldValue := a.unsoldValue }

/-- The sold records that contribute to sale-derived sums: `isSold` and
truthy (non-null, non-zero) `sellPrice`. -/
def soldWithProceeds (l : List CardTransaction) : List CardTransaction :=
  l.filter (fun c => c.isSold && truthyQ c.sellPrice)

/-- Sum of `buyPrice` over all records. -/
def totalInvestedOf (l : List CardTransaction) : ℚ := (l.map (·.buyPrice)).sum

/-- Sum of `sellPrice` over the contributing sold records. -/
def totalSaleProceedsOf (l : List CardTransaction) : ℚ :=
  ((soldWithProceeds l).map (fun c => c.sellPrice.getD 0)).sum

/-- Sum of `buyPrice` over the contributing sold records. -/
def costBasisOfSold (l : List CardTransaction) : ℚ :=
  ((soldWithProceeds l).map (·.buyPrice)).sum

/-- Count of the contributing sold records. -/
def soldCountOf (l : List CardTransaction) : Nat := (soldWithProceeds l).length

/-- Sum of `buyPrice` over records with `isSold` false. -/
def unsoldValueOf (l : List CardTransaction) : ℚ :=
  ((l.filter (fun c => !c.isSold)).map (·.buyPrice)).sum

theorem foldl_statsStep (l : List CardTransaction) : ∀ a : StatsAcc,
    l.foldl statsStep a =
      ⟨a.totalInvested + totalInvestedOf l, a.totalSoldVal + totalSaleProceedsOf l,
       a.soldCostBasis + costBasisOfSold l, a.soldCount + soldCountOf l,
       a.unsoldValue + unsoldValueOf l⟩ := by
  induction l with
  | nil =>
    intro a
    simp [totalInvestedOf, totalSaleProceedsOf, costBasisOfSold, soldCountOf,
      unsoldValueOf, soldWithProceeds]
  | cons c t ih =>
    intro a
    rw [List.foldl_cons, ih]
    by_cases hs : c.isSold <;> by_cases ht : truthyQ c.sellPrice <;>
      simp [statsStep, hs, ht, totalInvestedOf, totalSaleProceedsOf, costBasisOfSold,
        soldCountOf, unsoldValueOf, soldWithProceeds, List.filter_cons, StatsAcc.mk.injEq] <;>
      repeat' apply And.intro
    all_goals first | trivial | ring

/-- The two records of the spec's aggregation example: an unsold card at
100 and a card bought at 50, sold for 80. -/
def exampleUnsold : CardTransaction :=
  { id := "e1", name := "a", setOrSeries := "", notes := "", imageUrl := none,
    buyDate := 0, buyPrice := 100, isSold := false, sellDate := none,
    sellPrice := none, createdAt := 0 }

def exampleSold : CardTransaction :=
  { id := "e2", name := "b", setOrSeries := "", notes := "", imageUrl := none,
    buyDate := 0, buyPrice := 50, isSold := true, sellDate := some 1,
    sellPrice := some 80, createdAt := 1 }

/-- A sold card whose `sellPrice` is 0 — allowed by the data model
(non-negative amount, non-null since sold) and producible by the entry
form (`parseFloat(sellPrice) || 0`). -/
def soldForZero : CardTransaction :=
  { id := "z", name := "zero", setOrSeries := "", notes := "", imageUrl := none,
    buyDate := 0, buyPrice := 10, isSold := true, sellDate := some 1,
    sellPrice := some 0, createdAt := 0 }

/-- Claim C2 counterexample: the claim says `soldCount` is the count of
sold records in the filtered set, but for a sold record with
`sellPrice = 0` the code's truthiness test `if (c.sellPrice)` skips it:
`stats` reports `soldCount = 0` while the set has one sold record. -/
theorem stats_claim_counterexample :
    ¬ ((stats [soldForZero]).soldCount =
        (List.filter (fun c => c.isSold) [soldForZero]).length) := by decide

/-- Claim C2 (amended: the sale-derived sums, the sold count, and hence
`netProfit`/`roi` range over the sold records whose `sellPrice` is
non-null and non-zero — the code tests JS truthiness of `sellPrice`):
`totalInvested` sums `buyPrice` over all records, `unsoldValue` over
unsold records; `totalSoldVal` sums `sellPrice` and `costBasisOfSold`
sums `buyPrice` over the contributing sold records; `netProfit` is their
difference; `roi` is `netProfit / costBasisOfSold * 100` when the cost
basis is positive and `0` otherwise; `soldCount` counts the
contributing sold records.  On the spec's two-record example the values
are `totalInvested = 150`, `unsoldValue = 100`, `netProfit = 30`,
`roi = 60`, `soldCount = 1`. -/
theorem stats_spec :
    (∀ l : List CardTransaction,
      (stats l).totalInvested = totalInvestedOf l ∧
      (stats l).unsoldValue = unsoldValueOf l ∧
      (stats l).totalSoldVal = totalSaleProceedsOf l ∧
      (stats l).netProfit = totalSaleProceedsOf l - costBasisOfSold l ∧
      (stats l).roi = (if costBasisOfSold l > 0 then
        (totalSaleProceedsOf l - costBasisOfSold l) / costBasisOfSold l * 100 else 0) ∧
      (stats l).soldCount = soldCountOf l) ∧
    ((stats [exampleUnsold, exampleSold]).totalInvested = 150 ∧
     (stats [exampleUnsold, exampleSold]).unsoldValue = 100 ∧
     (stats [exampleUnsold, exampleSold]).netProfit = 30 ∧
     (stats [exampleUnsold, exampleSold]).roi = 60 ∧
     (stats [exampleUnsold, exampleSold]).soldCount = 1) := by
  constructor
  · intro l
    simp only [stats, foldl_statsStep l ⟨0, 0, 0, 0, 0⟩]
    norm_num
  · have h := foldl_statsStep [exampleUnsold, exampleSold] ⟨0, 0, 0, 0, 0⟩
    refine ⟨?_, ?_, ?_, ?_, ?_⟩ <;>
      norm_num [stats, h, statsStep, totalInvestedOf, unsoldValueOf, totalSaleProceedsOf,
        costBasisOfSold, soldCountOf, soldWithProceeds, exampleUnsold, exampleSold,
        truthyQ, List.filter_cons]

/-- Claim C10: when every sold record in the filtered set has a truthy
(non-null, non-zero) `sellPrice`, the statistics satisfy
`totalInvested = unsoldValue + costBasisOfSold`; a sold record with
`sellPrice` null or `0` contributes its `buyPrice` to `totalInvested`
but to neither `unsoldValue` nor `costBasisOfSold`, so the identity can
fail without that precondition (witnessed by `soldForZero`). -/
theorem stats_accounting_identity :
    (∀ l : List CardTransaction,
      (∀ c ∈ l, c.isSold = true → truthyQ c.sellPrice = true) →
      (stats l).totalInvested = (stats l).unsoldValue + costBasisOfSold l) ∧
    ((stats [soldForZero]).totalInvested = 10 ∧
     (stats [soldForZero]).unsoldValue = 0 ∧
     costBasisOfSold [soldForZero] = 0) := by
  constructor
  · intro l hl
    simp only [stats, foldl_statsStep l ⟨0, 0, 0, 0, 0⟩]
    norm_num
    induction l with
    | nil =>
      simp [totalInvestedOf, unsoldValueOf, costBasisOfSold, soldWithProceeds]
    | cons c t ih =>
      have ht := ih (fun c hc => hl c (List.mem_cons_of_mem _ hc))
      by_cases hs : c.isSold
      · have htr : truthyQ c.sellPrice = true := hl c (List.mem_cons_self _ _) hs
        simp [totalInvestedOf, unsoldValueOf, costBasisOfSold, soldWithProceeds,
          List.filter_cons, hs, htr] at ht ⊢
        rw [ht]; ring
      · simp [totalInvestedOf, unsoldValueOf, costBasisOfSold, soldWithProceeds,
          List.filter_cons, hs] at ht ⊢
        rw [ht]; ring
  · have h := foldl_statsStep [soldForZero] ⟨0, 0, 0, 0, 0⟩
    refine ⟨?_, ?_, ?_⟩ <;>
      norm_num [stats, h, statsStep, totalInvestedOf, unsoldValueOf, costBasisOfSold,
        soldWithProceeds, soldForZero, truthyQ, List.filter_cons]

/-- Witness for `stats_accounting_identity` at a concrete record set
satisfying the precondition. -/
theorem stats_accounting_identity_witness :
    (stats [exampleUnsold, exampleSold]).totalInvested =
      (stats [exampleUnsold, exampleSold]).unsoldValue +
        costBasisOfSold [exampleUnsold, exampleSold] :=
  stats_accounting_identity.1 [exampleUnsold, exampleSold] (by decide)

/-! ### The record repository (`src/utils/db.ts`) over an IndexedDB
object store with `keyPath: 'id'`.  The store is modelled as a list of
records; `put` replaces in place by `id` or appends; `delete` removes by
`id` and succeeds whether or not the key is present. -/

/-- IndexedDB `store.put(card)` on a store with `keyPath: 'id'`. -/
def putById (store : List CardTransaction) (c : CardTransaction) : List CardTransaction :=
  match store with
  | [] => [c]
  | x :: xs => if x.id = c.id then c :: xs else x :: putById xs c

/-- `deleteCardFromDB` (db.ts lines 97-107): `store.delete(id)`.  The
IndexedDB request succeeds whether or not the key exists; `reject` fires
only on a storage error, never on absence. -/
def deleteCardFromDB (store : List CardTransaction) (id : String) : List CardTransaction :=
  store.filter (fun c => c.id ≠ id)

/-- Descending `createdAt` order: the comparator
`(a, b) => b.createdAt - a.createdAt` of `loadCardsFromDB`. -/
def createdAtDesc (a b : CardTransaction) : Prop := b.createdAt ≤ a.createdAt

instance : DecidableRel createdAtDesc := fun a b => Int.decLe b.createdAt a.createdAt

instance : IsTotal CardTransaction createdAtDesc := ⟨fun _ _ => Int.le_total _ _⟩

instance : IsTrans CardTransaction createdAtDesc := ⟨fun _ _ _ hab hbc => le_trans hbc hab⟩

/-- `loadCardsFromDB` (db.ts lines 31-49): `getAll()` the store and sort
by `createdAt` descending (stable JS sort). -/
def loadCardsFromDB (store : List CardTransaction) : List CardTransaction :=
  List.insertionSort createdAtDesc store

/-- `bulkSaveCardsToDB` (db.ts lines 65-94): clear the store, then `put`
every card; resolve once the completion counter reaches `cards.length`,
reject as soon as any request errors.  `clearOk` models the clear
request's outcome and `ok` each put request's outcome. -/
def bulkSaveCardsToDB (clearOk : Bool) (ok : CardTransaction → Bool)
    (cards : List CardTransaction) : Except String (List CardTransaction) :=
  if clearOk then
    if cards.countP ok = cards.length then Except.ok (cards.foldl putById [])
    else Except.error ("Error during bulk save")
  else Except.error ("Error clearing store")

theorem putById_of_fresh (c : CardTransaction) :
    ∀ store : List CardTransaction, c.id ∉ store.map (·.id) →
      putById store c = store ++ [c] := by
  intro store
  induction store with
  | nil => intro _; rfl
  | cons x xs ih =>
    intro h
    simp only [List.map_cons, List.mem_cons] at h
    push_neg at h
    have hne : ¬ x.id = c.id := fun hx => h.1 hx.symm
    simp [putById, hne, ih h.2]

theorem foldl_putById_fresh :
    ∀ (cards acc : List CardTransaction), (cards.map (·.id)).Nodup →
      (∀ c ∈ cards, c.id ∉ acc.map (·.id)) →
      cards.foldl putById acc = acc ++ cards := by
  intro cards
  induction cards with
  | nil => intro acc _ _; simp
  | cons c t ih =>
    intro acc hnd hfresh
    simp only [List.map_cons, List.nodup_cons] at hnd
    rw [List.foldl_cons, putById_of_fresh c acc (hfresh c (List.mem_cons_self c t)),
      ih (acc ++ [c]) hnd.2]
    · simp
    · intro c' hc'
      simp only [List.map_append, List.mem_append, List.map_cons, List.map_nil,
        List.mem_singleton]
      push_neg
      refine ⟨hfresh c' (List.mem_cons_of_mem _ hc'), ?_⟩
      intro heq
      exact hnd.1 (heq ▸ List.mem_map_of_mem (·.id) hc')

/-- Two records sharing one `id`. -/
def dupFirst : CardTransaction :=
  { id := "d", name := "first", setOrSeries := "", notes := "", imageUrl := none,
    buyDate := 0, buyPrice := 1, isSold := false, sellDate := none,
    sellPrice := none, createdAt := 0 }

def dupSecond : CardTransaction :=
  { id := "d", name := "second", setOrSeries := "", notes := "", imageUrl := none,
    buyDate := 0, buyPrice := 2, isSold := false, sellDate := none,
    sellPrice := none, createdAt := 1 }

/-- Claim C5 counterexample: for an input sequence with two records
sharing an `id`, a successful `replaceAll` leaves only the later record
(`put` overwrites by key), not "exactly the records of R". -/
theorem bulkSave_claim_counterexample :
    bulkSaveCardsToDB true (fun _ => true) [dupFirst, dupSecond] ≠
      Except.ok [dupFirst, dupSecond] := by
  intro h
  have hv : bulkSaveCardsToDB true (fun _ => true) [dupFirst, dupSecond] =
      Except.ok [dupSecond] := rfl
  rw [hv] at h
  simp only [Except.ok.injEq] at h
  exact absurd (congrArg List.length h) (by decide)

/-- Claim C5 (amended: when the ids in `R` are pairwise distinct — the
data model's invariant — a successful `replaceAll(R)` leaves the store
containing exactly the records of `R`; with duplicate ids the later
record per id overwrites the earlier.  The empty sequence resolves
successfully and leaves the store empty, and a failure during the
constituent inserts — or during the clear — is reported to the caller
rather than left silently partial). -/
theorem bulkSave_spec :
    (∀ cards : List CardTransaction, (cards.map (·.id)).Nodup →
      bulkSaveCardsToDB true (fun _ => true) cards = Except.ok cards) ∧
    (∀ ok, bulkSaveCardsToDB true ok [] = Except.ok []) ∧
    (∀ (cards : List CardTransaction) (ok : CardTransaction → Bool),
      (∃ c ∈ cards, ok c = false) →
      ∃ e, bulkSaveCardsToDB true ok cards = Except.error e) := by
  refine ⟨?_, ?_, ?_⟩
  · intro cards hnd
    have hcount : cards.countP (fun _ => true) = cards.length := by
      simp [List.countP_eq_length]
    have hfold := foldl_putById_fresh cards [] hnd (by simp)
    simp [bulkSaveCardsToDB, hcount, hfold]
  · intro ok
    rfl
  · rintro cards ok ⟨c, hc, hcf⟩
    have hne : cards.countP ok ≠ cards.length := by
      rw [Ne, List.countP_eq_length]
      intro hall
      rw [hall c hc] at hcf
      exact Bool.noConfusion hcf
    refine ⟨"Error during bulk save", ?_⟩
    simp [bulkSaveCardsToDB, hne]

/-- Witness for `bulkSave_spec`: a successful one-record replace, and a
reported failure when the insert fails. -/
theorem bulkSave_spec_witness :
    bulkSaveCardsToDB true (fun _ => true) [exampleUnsold] = Except.ok [exampleUnsold] ∧
    (∃ e, bulkSaveCardsToDB true (fun _ => false) [exampleUnsold] = Except.error e) :=
  ⟨bulkSave_spec.1 [exampleUnsold] (by simp),
   bulkSave_spec.2.2 [exampleUnsold] (fun _ => false) ⟨exampleUnsold, by simp, rfl⟩⟩

/-- Claim C7: `loadAll` returns every stored record (a permutation of
the store's contents), ordered descending by `createdAt`. -/
theorem loadCardsFromDB_spec : ∀ store : List CardTransaction,
    (loadCardsFromDB store).Perm store ∧
    (loadCardsFromDB store).Pairwise (fun a b => b.createdAt ≤ a.createdAt) := by
  intro store
  exact ⟨List.perm_insertionSort _ _, List.sorted_insertionSort createdAtDesc store⟩

/-- Claim C8: `delete(id)` removes the record with that `id` if present,
keeps every other record, is a no-op (not an error) when the `id` is
absent, and is idempotent. -/
theorem deleteCard_spec : ∀ (store : List CardTransaction) (id : String),
    (∀ c ∈ deleteCardFromDB store id, c.id ≠ id) ∧
    (∀ c ∈ store, c.id ≠ id → c ∈ deleteCardFromDB store id) ∧
    ((∀ c ∈ store, c.id ≠ id) → deleteCardFromDB store id = store) ∧
    deleteCardFromDB (deleteCardFromDB store id) id = deleteCardFromDB store id := by
  intro store id
  refine ⟨?_, ?_, ?_, ?_⟩
  · intro c hc
    have := (List.mem_filter.mp hc).2
    simpa using this
  · intro c hc hne
    exact List.mem_filter.mpr ⟨hc, by simpa using hne⟩
  · intro h
    refine List.filter_eq_self.mpr ?_
    intro c hc
    simpa using h c hc
  · refine List.filter_eq_self.mpr ?_
    intro c hc
    exact (List.mem_filter.mp hc).2

/-- Witness for `deleteCard_spec`: double deletion of a present id, and
deletion of an absent id as a no-op. -/
theorem deleteCard_spec_witness :
    deleteCardFromDB (deleteCardFromDB [exampleUnsold, exampleSold] "e1") "e1" =
      deleteCardFromDB [exampleUnsold, exampleSold] "e1" ∧
    deleteCardFromDB [exampleSold] "e1" = [exampleSold] :=
  ⟨(deleteCard_spec [exampleUnsold, exampleSold] "e1").2.2.2,
   (deleteCard_spec [exampleSold] "e1").2.2.1 (by decide)⟩

/-! ### App-level handlers (`src/App.tsx`) -/

/-- The form payload of `CardFormModal.handleSubmit`
(`Omit<CardTransaction, 'id' | 'createdAt'>`): every record field except
`id` and `createdAt`. -/
structure CardFormData where
  name : String
  setOrSeries : String
  notes : String
  imageUrl : Option String
  buyDate : Int
  buyPrice : ℚ
  isSold : Bool
  sellDate : Option Int
  sellPrice : Option ℚ

/-- The edit branch of `handleSaveCard`:
`updatedCard = { ...editingCard, ...cardData }` — the spread of
`cardData` supplies every field except `id` and `createdAt`, which come
from the record being edited. -/
def mergeCard (editing : CardTransaction) (d : CardFormData) : CardTransaction :=
  { id := editing.id, createdAt := editing.createdAt,
    name := d.name, setOrSeries := d.setOrSeries, notes := d.notes,
    imageUrl := d.imageUrl, buyDate := d.buyDate, buyPrice := d.buyPrice,
    isSold := d.isSold, sellDate := d.sellDate, sellPrice := d.sellPrice }

/-- The add branch of `handleSaveCard`:
`{ ...cardData, id: crypto.randomUUID(), createdAt: Date.now() }`. -/
def newCard (newId : String) (now : Int) (d : CardFormData) : CardTransaction :=
  { id := newId, createdAt := now,
    name := d.name, setOrSeries := d.setOrSeries, notes := d.notes,
    imageUrl := d.imageUrl, buyDate := d.buyDate, buyPrice := d.buyPrice,
    isSold := d.isSold, sellDate := d.sellDate, sellPrice := d.sellPrice }

/-- The React cache plus the IndexedDB store. -/
structure AppState where
  cache : List CardTransaction
  store : List CardTransaction

deriving instance DecidableEq for AppState

/-- `handleSaveCard` (App.tsx lines 34-51).  The source first calls
`setCards` (mutating the cache), and only then `await saveCardToDB`.
The embedding makes the two phases explicit: the cache update always
happens; the store update happens only when the awaited write succeeds
(`writeOk`); a rejected write leaves the state as of the moment of
failure — cache already mutated, store untouched. -/
def handleSaveCard (editing : Option CardTransaction) (newId : String) (now : Int)
    (d : CardFormData) (writeOk : Bool) (s : AppState) : AppState :=
  let updated := match editing with
    | some e => mergeCard e d
    | none => newCard newId now d
  let s1 : AppState := { s with cache := match editing with
    | some e => s.cache.map (fun c => if c.id = e.id then updated else c)
    | none => updated :: s.cache }
  if writeOk then { s1 with store := putById s1.store updated } else s1

/-- `handleDeleteCard` (App.tsx lines 53-58), after the user confirms:
`setCards` filters the cache first, then `await deleteCardFromDB`. -/
def handleDeleteCard (id : String) (writeOk : Bool) (s : AppState) : AppState :=
  let s1 : AppState := { s with cache := s.cache.filter (fun c => c.id ≠ id) }
  if writeOk then { s1 with store := deleteCardFromDB s1.store id } else s1

/-- The state holding one card, in cache and store alike. -/
def oneCardState : AppState :=
  { cache := [exampleUnsold], store := [exampleUnsold] }

/-- Claim C4 counterexample: deleting `exampleUnsold` while the durable
write fails nevertheless changes the visible list — the cache is mutated
before the storage call succeeds, contradicting the claim. -/
theorem optimistic_mutation_counterexample :
    (handleDeleteCard "e1" false oneCardState).cache ≠ oneCardState.cache := by decide

/-- Claim C4 (amended: for the single-record operations the cache is
mutated optimistically *before* the storage call is awaited; when the
durable write fails, the store is left unchanged but the cache retains
the optimistic mutation — it is not rolled back). -/
theorem optimistic_mutation :
    (∀ (e : CardTransaction) (i : String) (t : Int) (d : CardFormData) (s : AppState),
      (handleSaveCard (some e) i t d false s).cache =
        s.cache.map (fun c => if c.id = e.id then mergeCard e d else c) ∧
      (handleSaveCard (some e) i t d false s).store = s.store) ∧
    (∀ (i : String) (t : Int) (d : CardFormData) (s : AppState),
      (handleSaveCard none i t d false s).cache = newCard i t d :: s.cache ∧
      (handleSaveCard none i t d false s).store = s.store) ∧
    (∀ (id : String) (s : AppState),
      (handleDeleteCard id false s).cache = s.cache.filter (fun c => c.id ≠ id) ∧
      (handleDeleteCard id false s).store = s.store) := by
  refine ⟨fun e i t d s => ⟨rfl, rfl⟩, fun i t d s => ⟨rfl, rfl⟩, fun id s => ⟨rfl, rfl⟩⟩

/-- Claim C9: an edit replaces every field except `id` and `createdAt`;
the merged record keeps exactly the edited record's `id` and
`createdAt` and takes every other field from the form payload. -/
theorem mergeCard_frame :
    ∀ (e : CardTransaction) (d : CardFormData),
      (mergeCard e d).id = e.id ∧
      (mergeCard e d).createdAt = e.createdAt ∧
      (mergeCard e d).name = d.name ∧
      (mergeCard e d).setOrSeries = d.setOrSeries ∧
      (mergeCard e d).notes = d.notes ∧
      (mergeCard e d).imageUrl = d.imageUrl ∧
      (mergeCard e d).buyDate = d.buyDate ∧
      (mergeCard e d).buyPrice = d.buyPrice ∧
      (mergeCard e d).isSold = d.isSold ∧
      (mergeCard e d).sellDate = d.sellDate ∧
      (mergeCard e d).sellPrice = d.sellPrice := by
  intro e d
  refine ⟨rfl, rfl, rfl, rfl, rfl, rfl, rfl, rfl, rfl, rfl, rfl⟩

/-! ### Snapshot exchange (`handleExportData` / `handleImportFile` in
`src/App.tsx`).  The serialized text is modelled at the level of the
JSON value it denotes (`JSON.stringify`/`JSON.parse` are inverse on such
values).  Export emits the cached record array verbatim with the field
names of `types.ts`; import checks `Array.isArray` and otherwise trusts
the elements, which the typed embedding renders as reading each field
back. -/

inductive Json where
  | null : Json
  | bool : Bool → Json
  | num : ℚ → Json
  | str : String → Json
  | arr : List Json → Json
  | obj : List (String × Json) → Json

def jsonOfOptStr : Option String → Json
  | none => Json.null
  | some s => Json.str s

def jsonOfOptInt : Option Int → Json
  | none => Json.null
  | some n => Json.num n

def jsonOfOptQ : Option ℚ → Json
  | none => Json.null
  | some q => Json.num q

/-- One record as `JSON.stringify` serializes it (field names from
`types.ts`; dates carried as their day number). -/
def cardToJson (c : CardTransaction) : Json :=
  Json.obj [("id", Json.str c.id), ("name", Json.str c.name),
    ("setOrSeries", Json.str c.setOrSeries), ("notes", Json.str c.notes),
    ("imageUrl", jsonOfOptStr c.imageUrl), ("buyDate", Json.num c.buyDate),
    ("buyPrice", Json.num c.buyPrice), ("isSold", Json.bool c.isSold),
    ("sellDate", jsonOfOptInt c.sellDate), ("sellPrice", jsonOfOptQ c.sellPrice),
    ("createdAt", Json.num c.createdAt)]

def asStr : Option Json → Option String
  | some (Json.str s) => some s
  | _ => none

def asOptStr : Option Json → Option (Option String)
  | some Json.null => some none
  | some (Json.str s) => some (some s)
  | _ => none

def asInt : Option Json → Option Int
  | some (Json.num q) => if q.den = 1 then some q.num else none
  | _ => none

def asOptInt : Option Json → Option (Option Int)
  | some Json.null => some none
  | some (Json.num q) => if q.den = 1 then some (some q.num) else none
  | _ => none

def asQ : Option Json → Option ℚ
  | some (Json.num q) => some q
  | _ => none

def asOptQ : Option Json → Option (Option ℚ)
  | some Json.null => some none
  | some (Json.num q) => some (some q)
  | _ => none

def asBool : Option Json → Option Bool
  | some (Json.bool b) => some b
  | _ => none

/-- Reading a record-shaped JSON object back into a record: the typed
counterpart of the source's untrusted structural use of a parsed
element. -/
def jsonToCard (j : Json) : Option CardTransaction :=
  match j with
  | Json.obj fs => do
    let id ← asStr (fs.lookup "id")
    let name ← asStr (fs.lookup "name")
    let setOrSeries ← asStr (fs.lookup "setOrSeries")
    let notes ← asStr (fs.lookup "notes")
    let imageUrl ← asOptStr (fs.lookup "imageUrl")
    let buyDate ← asInt (fs.lookup "buyDate")
    let buyPrice ← asQ (fs.lookup "buyPrice")
    let isSold ← asBool (fs.lookup "isSold")
    let sellDate ← asOptInt (fs.lookup "sellDate")
    let sellPrice ← asOptQ (fs.lookup "sellPrice")
    let createdAt ← asInt (fs.lookup "createdAt")
    pure { id := id, name := name, setOrSeries := setOrSeries, notes := notes,
           imageUrl := imageUrl, buyDate := buyDate, buyPrice := buyPrice,
           isSold := isSold, sellDate := sellDate, sellPrice := sellPrice,
           createdAt := createdAt }
  | _ => none

/-- `handleExportData` (App.tsx lines 77-88): `JSON.stringify(cards)` —
the JSON value is the array of serialized records. -/
def handleExportData (cards : List CardTransaction) : Json :=
  Json.arr (cards.map cardToJson)

/-- `handleImportFile` (App.tsx lines 95-124): parse, accept only when
`Array.isArray(data)`, and take the elements as the new record set. -/
def handleImportFile (j : Json) : Option (List CardTransaction) :=
  match j with
  | Json.arr xs => xs.mapM jsonToCard
  | _ => none

theorem jsonToCard_cardToJson (c : CardTransaction) :
    jsonToCard (cardToJson c) = some c := by
  obtain ⟨id, name, sos, notes, img, bd, bp, sold, sd, sp, ca⟩ := c
  cases img <;> cases sd <;> cases sp <;>
    simp [cardToJson, jsonToCard, jsonOfOptStr, jsonOfOptInt, jsonOfOptQ,
      List.lookup, asStr, asOptStr, asInt, asOptInt, asQ, asOptQ, asBool]

/-- Claim C6: importing the export of any record set `R` — the empty set
included — yields exactly `R`, field for field. -/
theorem import_export_roundtrip :
    ∀ R : List CardTransaction, handleImportFile (handleExportData R) = some R := by
  intro R
  induction R with
  | nil => rfl
  | cons c t ih =>
    simp only [handleExportData, handleImportFile, List.map_cons, List.mapM_cons,
      jsonToCard_cardToJson, Option.bind_eq_bind, Option.some_bind]
    simp only [handleExportData, handleImportFile] at ih
    rw [ih]
    rfl

/-! ### Cumulative profit time series (`chartData` in DashboardView.tsx,
lines 107-133).  The source filters `c.isSold && c.sellDate &&
c.sellPrice` (truthiness), sorts ascending by sale date (stable JS
sort), folds running totals, and writes each card's point into a
`Map` keyed by the sale date — overwriting, in place, the point of an
earlier sale on the same date.  `Map` iteration order is key insertion
order. -/

/-- `c.sellDate!` — only evaluated on cards whose `sellDate` is
non-null. -/
def saleDate (c : CardTransaction) : Int := c.sellDate.getD 0

/-- `c.sellPrice || 0`. -/
def saleAmount (c : CardTransaction) : ℚ := c.sellPrice.getD 0

/-- `(c.sellPrice || 0) - c.buyPrice`. -/
def saleProfit (c : CardTransaction) : ℚ := saleAmount c - c.buyPrice

/-- The source's chart filter: `c.isSold && c.sellDate && c.sellPrice`
(truthiness on `sellPrice`: null and 0 are both excluded). -/
def chartFilter (c : CardTransaction) : Bool :=
  c.isSold && c.sellDate.isSome && truthyQ c.sellPrice

/-- Modelled from the claim's words (for comparison with the source):
sold records with non-null `saleDate` and non-null `salePrice`. -/
def claimChartFilter (c : CardTransaction) : Bool :=
  c.isSold && c.sellDate.isSome && c.sellPrice.isSome

/-- The chart sort comparator
`new Date(a.sellDate!).getTime() - new Date(b.sellDate!).getTime()`. -/
def sellLE (a b : CardTransaction) : Prop := saleDate a ≤ saleDate b

instance : DecidableRel sellLE := fun a b => Int.decLe (saleDate a) (saleDate b)

instance : IsTotal CardTransaction sellLE := ⟨fun _ _ => Int.le_total _ _⟩

instance : IsTrans CardTransaction sellLE := ⟨fun _ _ _ => le_trans⟩

/-- The `timeline` map: association list of
`(date, runningProfit, runningSales)` in key insertion order. -/
def setKey : List (Int × ℚ × ℚ) → Int → ℚ × ℚ → List (Int × ℚ × ℚ)
  | [], d, v => [(d, v.1, v.2)]
  | e :: rest, d, v => if e.1 = d then (d, v.1, v.2) :: rest else e :: setKey rest d v

/-- The `soldCards.forEach` fold: accumulate the running totals and
write the current card's point into the timeline. -/
def buildTimeline : List CardTransaction → ℚ → ℚ → List (Int × ℚ × ℚ) → List (Int × ℚ × ℚ)
  | [], _, _, acc => acc
  | c :: rest, runP, runS, acc =>
    let p := runP + saleProfit c
    let q := runS + saleAmount c
    buildTimeline rest p q (setKey acc (saleDate c) (p, q))

/-- `chartData`: filter, sort ascending by sale date, fold, and emit the
timeline entries. -/
def chartData (cards : List CardTransaction) : List (Int × ℚ × ℚ) :=
  buildTimeline (List.insertionSort sellLE (cards.filter chartFilter)) 0 0 []

/-- The distinct sale dates of a card list, ascending. -/
def chartDatesSorted (l : List CardTransaction) : List Int :=
  List.insertionSort (· ≤ ·) ((l.map saleDate).dedup)

/-- Cumulative profit of all sales up to and including date `d`. -/
def cumProfitUpTo (l : List CardTransaction) (d : Int) : ℚ :=
  ((l.filter (fun c => saleDate c ≤ d)).map saleProfit).sum

/-- Cumulative sale proceeds of all sales up to and including date `d`. -/
def cumSalesUpTo (l : List CardTransaction) (d : Int) : ℚ :=
  ((l.filter (fun c => saleDate c ≤ d)).map saleAmount).sum

/-- Modelled from the claim's words: one point per distinct sale date in
ascending order, carrying the cumulative profit and cumulative proceeds
of all sales up to and including that date, over the records selected by
`p`. -/
def chartSpecWith (p : CardTransaction → Bool) (cards : List CardTransaction) :
    List (Int × ℚ × ℚ) :=
  let l := cards.filter p
  (chartDatesSorted l).map (fun d => (d, cumProfitUpTo l d, cumSalesUpTo l d))

/-- The timeline produced by the fold once a pending point at date `d0`
with the current totals is on the books: further sales at `d0` overwrite
it, a later date closes it and opens the next pending point. -/
def emitFrom : Int → List CardTransaction → ℚ → ℚ → List (Int × ℚ × ℚ)
  | d0, [], p, q => [(d0, p, q)]
  | d0, c :: rest, p, q =>
    if saleDate c = d0 then emitFrom d0 rest (p + saleProfit c) (q + saleAmount c)
    else (d0, p, q) :: emitFrom (saleDate c) rest (p + saleProfit c) (q + saleAmount c)

theorem setKey_of_fresh : ∀ (acc : List (Int × ℚ × ℚ)) (d : Int) (v : ℚ × ℚ),
    (∀ e ∈ acc, e.1 ≠ d) → setKey acc d v = acc ++ [(d, v.1, v.2)] := by
  intro acc
  induction acc with
  | nil => intro d v _; rfl
  | cons e rest ih =>
    intro d v h
    have he : e.1 ≠ d := h e (List.mem_cons_self e rest)
    simp [setKey, he, ih d v (fun x hx => h x (List.mem_cons_of_mem e hx))]

theorem setKey_append : ∀ (front t : List (Int × ℚ × ℚ)) (d : Int) (v : ℚ × ℚ),
    (∀ e ∈ front, e.1 ≠ d) → setKey (front ++ t) d v = front ++ setKey t d v := by
  intro front
  induction front with
  | nil => intro t d v _; rfl
  | cons e rest ih =>
    intro t d v h
    have he : e.1 ≠ d := h e (List.mem_cons_self e rest)
    simp [setKey, he, ih t d v (fun x hx => h x (List.mem_cons_of_mem e hx))]

theorem orderedInsert_of_forall_le (a : Int) :
    ∀ m : List Int, (∀ b ∈ m, a ≤ b) → List.orderedInsert (· ≤ ·) a m = a :: m := by
  intro m hm
  cases m with
  | nil => rfl
  | cons h t => simp [List.orderedInsert, hm h (List.mem_cons_self h t)]

theorem insertionSort_cons_min (a : Int) (l : List Int) (h : ∀ b ∈ l, a ≤ b) :
    List.insertionSort (· ≤ ·) (a :: l) = a :: List.insertionSort (· ≤ ·) l := by
  have h1 : List.insertionSort (· ≤ ·) (a :: l) =
      List.orderedInsert (· ≤ ·) a (List.insertionSort (· ≤ ·) l) := rfl
  rw [h1]
  refine orderedInsert_of_forall_le a _ ?_
  intro b hb
  exact h b ((List.mem_insertionSort _).mp hb)

theorem buildTimeline_emitFrom :
    ∀ (s : List CardTransaction), List.Sorted sellLE s →
    ∀ (front : List (Int × ℚ × ℚ)) (d0 : Int) (p q : ℚ),
      (∀ c ∈ s, d0 ≤ saleDate c) →
      (∀ e ∈ front, ∀ c ∈ s, e.1 ≠ saleDate c) →
      buildTimeline s p q (front ++ [(d0, p, q)]) = front ++ emitFrom d0 s p q := by
  intro s
  induction s with
  | nil => intro _ front d0 p q _ _; rfl
  | cons c rest ih =>
    intro hs front d0 p q hd0 hfront
    obtain ⟨hc, hrest⟩ := List.sorted_cons.mp hs
    by_cases hdd : saleDate c = d0
    · have hfr : ∀ e ∈ front, e.1 ≠ saleDate c :=
        fun e he => hfront e he c (List.mem_cons_self c rest)
      have hset : setKey (front ++ [(d0, p, q)]) (saleDate c)
          (p + saleProfit c, q + saleAmount c) =
          front ++ [(saleDate c, p + saleProfit c, q + saleAmount c)] := by
        rw [setKey_append front [(d0, p, q)] _ _ hfr]
        simp [setKey, hdd.symm]
      simp only [buildTimeline]
      rw [hset, ih hrest front (saleDate c) _ _
        (fun b hb => hc b hb)
        (fun e he b hb => hfront e he b (List.mem_cons_of_mem c hb))]
      simp [emitFrom, hdd]
    · have hlt : d0 < saleDate c :=
        lt_of_le_of_ne (hd0 c (List.mem_cons_self c rest)) (fun h => hdd h.symm)
      have hfr : ∀ e ∈ front ++ [(d0, p, q)], e.1 ≠ saleDate c := by
        intro e he
        rcases List.mem_append.mp he with h | h
        · exact hfront e h c (List.mem_cons_self c rest)
        · rw [List.mem_singleton.mp h]
          exact ne_of_lt hlt
      have hset : setKey (front ++ [(d0, p, q)]) (saleDate c)
          (p + saleProfit c, q + saleAmount c) =
          (front ++ [(d0, p, q)]) ++
            [(saleDate c, p + saleProfit c, q + saleAmount c)] :=
        setKey_of_fresh _ _ _ hfr
      simp only [buildTimeline]
      rw [hset, ih hrest (front ++ [(d0, p, q)]) (saleDate c) _ _
        (fun b hb => hc b hb) ?hfr2]
      · simp [emitFrom, if_neg hdd]
      case hfr2 =>
        intro e he b hb
        rcases List.mem_append.mp he with h | h
        · exact hfront e h b (List.mem_cons_of_mem c hb)
        · rw [List.mem_singleton.mp h]
          exact ne_of_lt (lt_of_lt_of_le hlt (hc b hb))

theorem emitFrom_spec :
    ∀ (s : List CardTransaction), List.Sorted sellLE s →
    ∀ (d0 : Int) (p q : ℚ), (∀ c ∈ s, d0 ≤ saleDate c) →
      emitFrom d0 s p q =
        (List.insertionSort (· ≤ ·) ((d0 :: s.map saleDate).dedup)).map
          (fun d => (d, p + cumProfitUpTo s d, q + cumSalesUpTo s d)) := by
  intro s
  induction s with
  | nil =>
    intro _ d0 p q _
    simp [emitFrom, cumProfitUpTo, cumSalesUpTo, List.insertionSort]
  | cons c rest ih =>
    intro hs d0 p q hd0
    obtain ⟨hc, hrest⟩ := List.sorted_cons.mp hs
    have hcrest : ∀ b ∈ rest, saleDate c ≤ saleDate b := fun b hb => hc b hb
    by_cases hdd : saleDate c = d0
    · have hle : ∀ b ∈ rest, d0 ≤ saleDate b := fun b hb => hdd ▸ hcrest b hb
      have hstep : emitFrom d0 (c :: rest) p q =
          emitFrom d0 rest (p + saleProfit c) (q + saleAmount c) := by
        simp [emitFrom, hdd]
      rw [hstep, ih hrest d0 (p + saleProfit c) (q + saleAmount c) hle]
      have hdate : (d0 :: List.map saleDate (c :: rest)).dedup =
          (d0 :: List.map saleDate rest).dedup := by
        rw [List.map_cons, hdd, List.dedup_cons_of_mem (List.mem_cons_self d0 _)]
      rw [hdate]
      apply List.map_congr_left
      intro dd hdm
      have hddmem : dd = d0 ∨ dd ∈ List.map saleDate rest := by
        have h1 := (List.mem_insertionSort _).mp hdm
        have h2 := List.mem_dedup.mp h1
        simpa using h2
      have hcd : saleDate c ≤ dd := by
        rcases hddmem with h | h
        · subst h
          exact le_of_eq hdd
        · obtain ⟨b, hb, rfl⟩ := List.mem_map.mp h
          exact hcrest b hb
      have hfc : List.filter (fun x => decide (saleDate x ≤ dd)) (c :: rest) =
          c :: List.filter (fun x => decide (saleDate x ≤ dd)) rest := by
        simp [List.filter_cons, hcd]
      simp only [cumProfitUpTo, cumSalesUpTo, hfc, List.map_cons, List.sum_cons,
        Prod.mk.injEq, true_and]
      constructor <;> ring
    · have hlt : d0 < saleDate c :=
        lt_of_le_of_ne (hd0 c (List.mem_cons_self c rest)) (fun h => hdd h.symm)
      have hstep : emitFrom d0 (c :: rest) p q =
          (d0, p, q) :: emitFrom (saleDate c) rest (p + saleProfit c) (q + saleAmount c) := by
        simp [emitFrom, hdd]
      rw [hstep, ih hrest (saleDate c) (p + saleProfit c) (q + saleAmount c) hcrest]
      have hnotmem : d0 ∉ (saleDate c :: List.map saleDate rest) := by
        intro hmem
        rcases List.mem_cons.mp hmem with h | h
        · exact hdd h.symm
        · obtain ⟨b, hb, hbeq⟩ := List.mem_map.mp h
          exact absurd hbeq.symm (ne_of_lt (lt_of_lt_of_le hlt (hcrest b hb)))
      have hmin : ∀ b ∈ (saleDate c :: List.map saleDate rest).dedup, d0 ≤ b := by
        intro b hb
        have hb2 := List.mem_dedup.mp hb
        rcases List.mem_cons.mp hb2 with h | h
        · rw [h]
          exact le_of_lt hlt
        · obtain ⟨b', hb', rfl⟩ := List.mem_map.mp h
          exact le_of_lt (lt_of_lt_of_le hlt (hcrest b' hb'))
      rw [List.map_cons, List.dedup_cons_of_not_mem hnotmem,
        insertionSort_cons_min d0 _ hmin, List.map_cons]
      have hfe : List.filter (fun x => decide (saleDate x ≤ d0)) (c :: rest) = [] := by
        rw [List.filter_eq_nil_iff]
        intro a ha
        rcases List.mem_cons.mp ha with h | h
        · subst h
          simp only [decide_eq_true_eq]
          exact not_le.mpr hlt
        · simp only [decide_eq_true_eq]
          exact not_le.mpr (lt_of_lt_of_le hlt (hcrest a h))
      congr 1
      · simp [cumProfitUpTo, cumSalesUpTo, hfe]
      · apply List.map_congr_left
        intro dd hdm
        have hddmem : dd = saleDate c ∨ dd ∈ List.map saleDate rest := by
          have h1 := (List.mem_insertionSort _).mp hdm
          have h2 := List.mem_dedup.mp h1
          simpa using h2
        have hcd : saleDate c ≤ dd := by
          rcases hddmem with h | h
          · exact le_of_eq h.symm
          · obtain ⟨b, hb, rfl⟩ := List.mem_map.mp h
            exact hcrest b hb
        have hfc : List.filter (fun x => decide (saleDate x ≤ dd)) (c :: rest) =
            c :: List.filter (fun x => decide (saleDate x ≤ dd)) rest := by
          simp [List.filter_cons, hcd]
        simp only [cumProfitUpTo, cumSalesUpTo, hfc, List.map_cons, List.sum_cons,
          Prod.mk.injEq, true_and]
        constructor <;> ring

theorem buildTimeline_sorted_spec :
    ∀ s : List CardTransaction, List.Sorted sellLE s →
      buildTimeline s 0 0 [] =
        (List.insertionSort (· ≤ ·) ((s.map saleDate).dedup)).map
          (fun d => (d, cumProfitUpTo s d, cumSalesUpTo s d)) := by
  intro s hs
  cases s with
  | nil => rfl
  | cons c rest =>
    obtain ⟨hc, hrest⟩ := List.sorted_cons.mp hs
    have hcrest : ∀ b ∈ rest, saleDate c ≤ saleDate b := fun b hb => hc b hb
    have h1 : buildTimeline (c :: rest) 0 0 [] =
        buildTimeline rest (0 + saleProfit c) (0 + saleAmount c)
          ([] ++ [(saleDate c, 0 + saleProfit c, 0 + saleAmount c)]) := rfl
    rw [h1, buildTimeline_emitFrom rest hrest [] (saleDate c) _ _ hcrest (by simp),
      emitFrom_spec rest hrest (saleDate c) _ _ hcrest]
    simp only [List.nil_append, List.map_cons]
    apply List.map_congr_left
    intro dd hdm
    have hddmem : dd = saleDate c ∨ dd ∈ List.map saleDate rest := by
      have h2 := (List.mem_insertionSort _).mp hdm
      have h3 := List.mem_dedup.mp h2
      simpa using h3
    have hcd : saleDate c ≤ dd := by
      rcases hddmem with h | h
      · exact le_of_eq h.symm
      · obtain ⟨b, hb, rfl⟩ := List.mem_map.mp h
        exact hcrest b hb
    have hfc : List.filter (fun x => decide (saleDate x ≤ dd)) (c :: rest) =
        c :: List.filter (fun x => decide (saleDate x ≤ dd)) rest := by
      simp [List.filter_cons, hcd]
    simp only [cumProfitUpTo, cumSalesUpTo, hfc, List.map_cons, List.sum_cons,
      Prod.mk.injEq, true_and]
    constructor <;> ring

theorem chartDates_perm {l₁ l₂ : List CardTransaction} (h : l₁.Perm l₂) :
    List.insertionSort (· ≤ ·) ((l₁.map saleDate).dedup) =
      List.insertionSort (· ≤ ·) ((l₂.map saleDate).dedup) := by
  have hp : (List.insertionSort (· ≤ ·) ((l₁.map saleDate).dedup)).Perm
      (List.insertionSort (· ≤ ·) ((l₂.map saleDate).dedup)) :=
    ((List.perm_insertionSort _ _).trans ((h.map saleDate).dedup)).trans
      (List.perm_insertionSort _ _).symm
  have hs1 : (List.insertionSort (· ≤ ·) ((l₁.map saleDate).dedup)).Sorted
      (fun a b : Int => a ≤ b) := List.sorted_insertionSort _ _
  have hs2 : (List.insertionSort (· ≤ ·) ((l₂.map saleDate).dedup)).Sorted
      (fun a b : Int => a ≤ b) := List.sorted_insertionSort _ _
  exact List.eq_of_perm_of_sorted hp hs1 hs2

theorem cumProfitUpTo_perm {l₁ l₂ : List CardTransaction} (h : l₁.Perm l₂) (d : Int) :
    cumProfitUpTo l₁ d = cumProfitUpTo l₂ d :=
  List.Perm.sum_eq ((h.filter (fun c => decide (saleDate c ≤ d))).map saleProfit)

theorem cumSalesUpTo_perm {l₁ l₂ : List CardTransaction} (h : l₁.Perm l₂) (d : Int) :
    cumSalesUpTo l₁ d = cumSalesUpTo l₂ d :=
  List.Perm.sum_eq ((h.filter (fun c => decide (saleDate c ≤ d))).map saleAmount)

theorem chartData_eq_spec (cards : List CardTransaction) :
    chartData cards = chartSpecWith chartFilter cards := by
  have hperm : (List.insertionSort sellLE (cards.filter chartFilter)).Perm
      (cards.filter chartFilter) := List.perm_insertionSort _ _
  rw [chartData, buildTimeline_sorted_spec _ (List.sorted_insertionSort sellLE _)]
  simp only [chartSpecWith, chartDatesSorted]
  rw [chartDates_perm hperm]
  apply List.map_congr_left
  intro dd _
  simp [cumProfitUpTo_perm hperm, cumSalesUpTo_perm hperm]

theorem chartSpecWith_perm (p : CardTransaction → Bool)
    {l₁ l₂ : List CardTransaction} (h : l₁.Perm l₂) :
    chartSpecWith p l₁ = chartSpecWith p l₂ := by
  have hf := h.filter p
  simp only [chartSpecWith, chartDatesSorted]
  rw [chartDates_perm hf]
  apply List.map_congr_left
  intro dd _
  simp [cumProfitUpTo_perm hf, cumSalesUpTo_perm hf]

/-- A card bought at 10 and sold 2024-03-01 for 15 (profit +5). -/
def saleMarch1 : CardTransaction :=
  { id := "m1", name := "m1", setOrSeries := "", notes := "", imageUrl := none,
    buyDate := 0, buyPrice := 10, isSold := true,
    sellDate := some (daysFromCivil 2024 3 1), sellPrice := some 15, createdAt := 0 }

/-- A card bought at 20 and sold 2024-03-02 for 30 (profit +10). -/
def saleMarch2 : CardTransaction :=
  { id := "m2", name := "m2", setOrSeries := "", notes := "", imageUrl := none,
    buyDate := 0, buyPrice := 20, isSold := true,
    sellDate := some (daysFromCivil 2024 3 2), sellPrice := some 30, createdAt := 0 }

/-- Claim C3 counterexample: the claim includes every sold record with
non-null `saleDate` and `salePrice`, but the code's truthiness test
excludes a sold record with `salePrice = 0`: its series is empty while
the claim's description yields one point (with profit `-10`). -/
theorem chartData_claim_counterexample :
    chartData [soldForZero] ≠ chartSpecWith claimChartFilter [soldForZero] := by
  have h1 : chartData [soldForZero] = [] := rfl
  have h2 : claimChartFilter soldForZero = true := by decide
  intro h
  rw [h1] at h
  simp [chartSpecWith, chartDatesSorted, List.filter_cons, h2, soldForZero, saleDate,
    List.insertionSort, List.orderedInsert] at h

/-- Claim C3 (amended: the series is built from the sold records whose
`saleDate` is non-null and whose `salePrice` is non-null AND non-zero —
the code tests JS truthiness of `sellPrice`): sort those sales ascending
by sale date and emit one point per distinct sale date whose cumulative
profit accumulates `salePrice − purchasePrice` and whose cumulative
proceeds accumulate `salePrice` over all sales up to and including that
date, sales sharing a date collapsing into one point; the output is
invariant under permutation of the input, and the +5 (2024-03-01) /
+10 (2024-03-02) example yields `[(2024-03-01, 5), (2024-03-02, 15)]`
in either input order. -/
theorem chartData_spec :
    (∀ cards : List CardTransaction, chartData cards = chartSpecWith chartFilter cards) ∧
    (∀ l₁ l₂ : List CardTransaction, l₁.Perm l₂ → chartData l₁ = chartData l₂) ∧
    (chartData [saleMarch2, saleMarch1] =
        [(daysFromCivil 2024 3 1, 5, 15), (daysFromCivil 2024 3 2, 15, 45)] ∧
     chartData [saleMarch1, saleMarch2] =
        [(daysFromCivil 2024 3 1, 5, 15), (daysFromCivil 2024 3 2, 15, 45)]) := by
  refine ⟨chartData_eq_spec, ?_, ?_, ?_⟩
  · intro l₁ l₂ h
    rw [chartData_eq_spec, chartData_eq_spec, chartSpecWith_perm chartFilter h]
  · have hf1 : chartFilter saleMarch1 = true := by decide
    have hf2 : chartFilter saleMarch2 = true := by decide
    have hle : sellLE saleMarch1 saleMarch2 := by decide
    have hnle : ¬ sellLE saleMarch2 saleMarch1 := by decide
    have hne : saleDate saleMarch2 ≠ saleDate saleMarch1 := by decide
    have hne2 : daysFromCivil 2024 3 1 ≠ daysFromCivil 2024 3 2 := by decide
    norm_num [chartData, List.filter_cons, hf1, hf2, List.insertionSort,
      List.orderedInsert, hle, hnle, buildTimeline, setKey, hne, hne2, saleDate,
      saleProfit, saleAmount, saleMarch1, saleMarch2]
  · have hf1 : chartFilter saleMarch1 = true := by decide
    have hf2 : chartFilter saleMarch2 = true := by decide
    have hle : sellLE saleMarch1 saleMarch2 := by decide
    have hne : saleDate saleMarch2 ≠ saleDate saleMarch1 := by decide
    have hne2 : daysFromCivil 2024 3 1 ≠ daysFromCivil 2024 3 2 := by decide
    norm_num [chartData, List.filter_cons, hf1, hf2, List.insertionSort,
      List.orderedInsert, hle, buildTimeline, setKey, hne, hne2, saleDate,
      saleProfit, saleAmount, saleMarch1, saleMarch2]

/-- Witness for `chartData_spec`: the permutation-invariance conjunct at
the example input pair. -/
theorem chartData_spec_witness :
    chartData [saleMarch2, saleMarch1] = chartData [saleMarch1, saleMarch2] :=
  chartData_spec.2.1 [saleMarch2, saleMarch1] [saleMarch1, saleMarch2]
    (List.Perm.swap saleMarch1 saleMarch2 [])
